import Mathlib

/-! ## Urho3D `Context`: the event-send bracket and the keyed lookups

A shallow embedding of the inline member functions of `class Context`
(`Engine/Core/Context.h`): `SetEventHandler`, `BeginSendEvent`, `EndSendEvent`,
`GetHandler`, `GetAttributes` and the two `GetReceivers` overloads, together with the
private state they read and write.

Conventions of the embedding

* a raw pointer (`Object*`, `EventHandler*`, the pointee of a `SharedPtr`) is a natural
  number, the null pointer being `0` (the source tests `*j == 0`);
* a `WeakPtr<T>` is the pointer it was assigned; which objects have been destroyed since
  is a predicate `expired` handed to the function that reads the weak pointer
  (`WeakPtr.get`), and an expired weak pointer reads as null;
* `StringHash` and `ShortStringHash` are their unsigned hash value;
* `std::vector<T>` is a `List T`, `push_back` appends at the end and `pop_back` drops the
  last element;
* `std::map<K, V>` is an association list, looked up by `StdMap.find`; `operator[]` is
  `StdMap.subscript`, which inserts a default-constructed value in key order when the key
  is absent;
* `std::set<K>` is the list of its elements in iteration order;
* a member function that mutates the object maps a `Context` to the new `Context`;
  `EndSendEvent` returns `none` where the source has undefined behaviour (`pop_back` on an
  empty vector).
-/

namespace Urho3D

/-- An `Object*`; `0` is the null pointer. -/
abbrev ObjectPtr := Nat

/-- An `EventHandler*` (the target of the `WeakPtr<EventHandler>`); `0` is null. -/
abbrev HandlerPtr := Nat

/-- Modelled from the spec: the `WeakPtr` template (`handler_` is a
`WeakPtr<EventHandler>`) is not part of the sources at hand. The spec describes a weak
reference as a non-owning reference with a liveness check, which reads as null once its
referent has been destroyed. `expired` tells which objects have been destroyed; `ptr` is
the pointer the weak pointer was assigned. -/
def WeakPtr.get (expired : Nat → Bool) (ptr : Nat) : Nat :=
  if expired ptr then 0 else ptr

/-- An `ObjectFactory*` held by a `SharedPtr<ObjectFactory>`; `0` is null. -/
abbrev FactoryPtr := Nat

/-- The value of a `StringHash` (event type). -/
abbrev StringHash := Nat

/-- The value of a `ShortStringHash` (object type). -/
abbrev ShortStringHash := Nat

/-- Modelled from the spec: `AttributeInfo` is declared in `Attribute.h`, which is not part
of the sources at hand. The spec describes a descriptor as a name together with offset/kind
metadata that the context never inspects. -/
structure AttributeInfo where
  name : String
  metadata : Nat
  deriving DecidableEq, Repr

/-- A `std::map<K, V>` as an association list. -/
abbrev StdMap (K V : Type) := List (K × V)

/-- Member `std::map::find`: the value stored under `k`, or `none` for `end()`. -/
def StdMap.find {K V : Type} [DecidableEq K] : StdMap K V → K → Option V
  | [], _ => none
  | (k', v) :: m, k => if k' = k then some v else StdMap.find m k

/-- Insertion of a new pair in front of the first entry whose key is greater
(`lt` is the key comparison of the map). -/
def StdMap.orderedInsert {K V : Type} (lt : K → K → Bool) : StdMap K V → K → V → StdMap K V
  | [], k, v => [(k, v)]
  | (k', v') :: m, k, v =>
    if lt k k' then (k, v) :: (k', v') :: m
    else (k', v') :: StdMap.orderedInsert lt m k v

/-- Member `std::map::operator[]` as far as the map is concerned: when `k` has no entry, a
default-constructed value `d` is inserted under it; otherwise the map is left alone. -/
def StdMap.subscript {K V : Type} [DecidableEq K] (lt : K → K → Bool)
    (m : StdMap K V) (k : K) (d : V) : StdMap K V :=
  match StdMap.find m k with
  | some _ => m
  | none => StdMap.orderedInsert lt m k d

/-- Writing through the reference that `operator[]` returned: the value stored under `k`
is replaced by `f` of it. -/
def StdMap.modify {K V : Type} [DecidableEq K] : StdMap K V → K → (V → V) → StdMap K V
  | [], _, _ => []
  | (k', v) :: m, k, f =>
    if k' = k then (k', f v) :: m else (k', v) :: StdMap.modify m k f

/-- The guarantee of `std::map` that a key has at most one entry. -/
def StdMap.UniqueKeys {K V : Type} (m : StdMap K V) : Prop :=
  (m.map Prod.fst).Nodup

instance StdMap.decidableUniqueKeys {K V : Type} [DecidableEq K] (m : StdMap K V) :
    Decidable (StdMap.UniqueKeys m) :=
  inferInstanceAs (Decidable ((m.map Prod.fst).Nodup))

/-- Comparison `operator<` of `StringHash`: comparison of the hash values. -/
def hashLt (a b : StringHash) : Bool := decide (a < b)

/-- Comparison `operator<` of `std::pair<Object*, StringHash>`: lexicographic. -/
def pairLt (a b : ObjectPtr × StringHash) : Bool :=
  decide (a.1 < b.1) || (!decide (b.1 < a.1) && decide (a.2 < b.2))

/-- The private state of `Context`. -/
structure Context where
  /-- Object factories -/
  factories_ : StdMap ShortStringHash FactoryPtr
  /-- Subsystems -/
  subsystems_ : StdMap ShortStringHash ObjectPtr
  /-- Attribute descriptions per object type -/
  attributes_ : StdMap ShortStringHash (List AttributeInfo)
  /-- Event receivers for non-specific events -/
  receivers_ : StdMap StringHash (List ObjectPtr)
  /-- Event receivers for specific senders' events -/
  specificReceivers_ : StdMap (ObjectPtr × StringHash) (List ObjectPtr)
  /-- Event sender stack; the back of the vector is the last element -/
  senders_ : List ObjectPtr
  /-- Event types that have had receivers removed during event handling -/
  dirtyReceivers_ : List StringHash
  /-- Event types for specific senders that have had receivers removed during event handling -/
  dirtySpecificReceivers_ : List (ObjectPtr × StringHash)
  /-- Active event handler: the pointer held by the `WeakPtr<EventHandler>` -/
  handler_ : HandlerPtr
  deriving DecidableEq, Repr

/-- The inner loop of `EndSendEvent`:
`for (j = receivers.begin(); j != receivers.end();) if (*j == 0) j = receivers.erase(j); else ++j;`
The vector is `done ++ todo` and the iterator `j` stands at the head of `todo`: `erase(j)`
removes that element and leaves `j` on its successor, `++j` moves the element over to
`done`. The loop ends when `todo` is empty, and the vector is then `done`. -/
def eraseNullsLoop (done : List ObjectPtr) : List ObjectPtr → List ObjectPtr
  | [] => done
  | r :: todo => if r = 0 then eraseNullsLoop done todo else eraseNullsLoop (done ++ [r]) todo

/-- The inner loop started at `receivers.begin()`. -/
def eraseNulls (receivers : List ObjectPtr) : List ObjectPtr :=
  eraseNullsLoop [] receivers

/-- One round of an outer loop of `EndSendEvent`:
`std::vector<Object*>& receivers = map[key];` followed by the inner loop on `receivers`. -/
def compactBucket {K : Type} [DecidableEq K] (lt : K → K → Bool)
    (m : StdMap K (List ObjectPtr)) (key : K) : StdMap K (List ObjectPtr) :=
  StdMap.modify (StdMap.subscript lt m key []) key eraseNulls

namespace Context

/-- Source: `void SetEventHandler(EventHandler* handler)`. -/
def SetEventHandler (c : Context) (handler : HandlerPtr) : Context :=
  { c with handler_ := handler }

/-- Source: `void BeginSendEvent(Object* sender)`. -/
def BeginSendEvent (c : Context) (sender : ObjectPtr) : Context :=
  { c with senders_ := c.senders_ ++ [sender] }

/-- Source: `void EndSendEvent()`. The result `none` stands for the undefined behaviour of
`pop_back` on an empty `senders_`. -/
def EndSendEvent (c : Context) : Option Context :=
  if c.senders_.isEmpty then none
  else
    let c1 : Context := { c with senders_ := c.senders_.dropLast }
    if c1.senders_.isEmpty then
      let c2 : Context :=
        if !c1.dirtySpecificReceivers_.isEmpty then
          { c1 with
            specificReceivers_ :=
              c1.dirtySpecificReceivers_.foldl (compactBucket pairLt) c1.specificReceivers_
            dirtySpecificReceivers_ := [] }
        else c1
      let c3 : Context :=
        if !c2.dirtyReceivers_.isEmpty then
          { c2 with
            receivers_ := c2.dirtyReceivers_.foldl (compactBucket hashLt) c2.receivers_
            dirtyReceivers_ := [] }
        else c2
      some c3
    else some c1

/-- Modelled from the spec: `Object* GetSender() const` is only declared in `Context.h`;
its body is not part of the sources at hand. The spec gives it as the top of the sender
stack, or null when the stack is empty. -/
def GetSender (c : Context) : ObjectPtr :=
  match c.senders_.getLast? with
  | some s => s
  | none => 0

/-- Source: `EventHandler* GetHandler() const { return handler_; }`. The member `handler_`
is a `WeakPtr<EventHandler>`, so the `return` converts it to a raw pointer: null when the
handler object has been destroyed (`expired`), the stored pointer otherwise. -/
def GetHandler (c : Context) (expired : HandlerPtr → Bool) : HandlerPtr :=
  WeakPtr.get expired c.handler_

/-- Source: `const std::vector<AttributeInfo>* GetAttributes(ShortStringHash type) const`:
the pointer returned (`none` for null) and the context after the call. -/
def GetAttributes (c : Context) (type : ShortStringHash) :
    Option (List AttributeInfo) × Context :=
  (StdMap.find c.attributes_ type, c)

/-- Source: `std::vector<Object*>* GetReceivers(Object* sender, StringHash eventType)`:
the pointer returned (`none` for null) and the context after the call. -/
def GetReceivers (c : Context) (sender : ObjectPtr) (eventType : StringHash) :
    Option (List ObjectPtr) × Context :=
  (StdMap.find c.specificReceivers_ (sender, eventType), c)

/-- Source: `std::vector<Object*>* GetReceivers(StringHash eventType)`, the overload for
non-specific events: the pointer returned (`none` for null) and the context after. -/
def GetReceiversOfType (c : Context) (eventType : StringHash) :
    Option (List ObjectPtr) × Context :=
  (StdMap.find c.receivers_ eventType, c)

end Context

/-- A context for experiments: sender `7` is broadcasting; the global list of event `5`
and the specific list of `(7, 5)` each hold a nulled slot and are marked dirty, the global
list of event `6` is clean, and the dirty event `9` has no bucket. -/
def sampleContext : Context :=
  { factories_ := [(1, 100)]
    subsystems_ := [(2, 200)]
    attributes_ := [(3, [⟨"pos", 0⟩, ⟨"rot", 1⟩])]
    receivers_ := [(5, [11, 0, 12, 11]), (6, [13])]
    specificReceivers_ := [((7, 5), [0, 14, 0])]
    senders_ := [7]
    dirtyReceivers_ := [5, 9]
    dirtySpecificReceivers_ := [(7, 5)]
    handler_ := 40 }

/-- A context in the middle of a nested send: sender `8` broadcasts from inside a handler
of sender `7`, and a receiver of event `5` has been nulled meanwhile. -/
def nestedContext : Context :=
  { sampleContext with senders_ := [7, 8] }

/-- A call of the send bracket: `BeginSendEvent(sender)` or `EndSendEvent()`. -/
inductive SendCall where
  | beginSend (sender : ObjectPtr)
  | endSend
  deriving DecidableEq, Repr

/-- Whether the call is a `BeginSendEvent`. -/
def SendCall.isBegin : SendCall → Bool
  | .beginSend _ => true
  | .endSend => false

/-- One call on a context; `none` when `EndSendEvent` meets an empty sender stack. -/
def Context.applyCall (c : Context) : SendCall → Option Context
  | .beginSend sender => some (c.BeginSendEvent sender)
  | .endSend => c.EndSendEvent

/-- A sequence of calls, one after the other; `none` as soon as one `EndSendEvent` is
applied to an empty sender stack. -/
def Context.runCalls (c : Context) : List SendCall → Option Context
  | [] => some c
  | call :: rest =>
    match c.applyCall call with
    | none => none
    | some c1 => Context.runCalls c1 rest

/-- The number of `BeginSendEvent` calls of a sequence. -/
def countBegin (calls : List SendCall) : Nat := calls.countP SendCall.isBegin

/-- The number of `EndSendEvent` calls of a sequence. -/
def countEnd (calls : List SendCall) : Nat := calls.countP (fun call => !call.isBegin)

/-- The search for an unmatched `BeginSendEvent`, latest call first: `pending` counts the
`EndSendEvent` calls passed that still wait for their `BeginSendEvent`. -/
def scanBack : List SendCall → Nat → Option ObjectPtr
  | [], _ => none
  | .endSend :: earlier, pending => scanBack earlier (pending + 1)
  | .beginSend sender :: _, 0 => some sender
  | .beginSend _ :: earlier, pending + 1 => scanBack earlier pending

/-- The argument of the most recent `BeginSendEvent` of the sequence that no later
`EndSendEvent` matches; `none` when every `BeginSendEvent` is matched. -/
def mostRecentUnmatched (calls : List SendCall) : Option ObjectPtr :=
  scanBack calls.reverse 0

/-- A context outside event handling: the sender stack and both dirty sets are empty. -/
def idleContext : Context :=
  { sampleContext with senders_ := [], dirtyReceivers_ := [], dirtySpecificReceivers_ := [],
                       handler_ := 0 }

/-- A send by `7` whose handlers run a senderless send (closed again) and then open a send
by `8`, which is closed; the send by `7` is still open at the end. -/
def sampleCalls : List SendCall :=
  [.beginSend 7, .beginSend 0, .endSend, .beginSend 8, .endSend]

/-- The invariant of the dirty sets: every event type of the global dirty set, and every
(sender, event type) pair of the specific dirty set, names a receiver list that holds at
least one null slot. -/
def DirtyInvariant (c : Context) : Prop :=
  (∀ e ∈ c.dirtyReceivers_, ∃ l, (c.GetReceiversOfType e).1 = some l ∧ 0 ∈ l) ∧
  (∀ p ∈ c.dirtySpecificReceivers_, ∃ l, (c.GetReceivers p.1 p.2).1 = some l ∧ 0 ∈ l)

/-- A nested send in which every dirty key names a list with a nulled slot. -/
def markedContext : Context :=
  { nestedContext with dirtyReceivers_ := [5] }

/-- A send by `8` during which sender `7` was destroyed: the bucket of `(7, 5)` is gone
from the specific map while the specific dirty set still names the pair. -/
def purgedContext : Context :=
  { factories_ := []
    subsystems_ := []
    attributes_ := []
    receivers_ := []
    specificReceivers_ := []
    senders_ := [8]
    dirtyReceivers_ := []
    dirtySpecificReceivers_ := [(7, 5)]
    handler_ := 0 }

/-- The sample send with a null slot in the list of event `6`, which no dirty set names. -/
def unmarkedContext : Context :=
  { sampleContext with receivers_ := [(5, [11, 0, 12, 11]), (6, [0, 13])] }

/-- A call of one of the three members that the handler bookkeeping involves. -/
inductive ContextCall where
  | setEventHandler (handler : HandlerPtr)
  | beginSendEvent (sender : ObjectPtr)
  | endSendEvent
  deriving DecidableEq, Repr

/-- Whether the call is a `BeginSendEvent`. -/
def ContextCall.isBegin : ContextCall → Bool
  | .beginSendEvent _ => true
  | _ => false

/-- Whether the call is an `EndSendEvent`. -/
def ContextCall.isEnd : ContextCall → Bool
  | .endSendEvent => true
  | _ => false

/-- The argument of the call when it is a `SetEventHandler`. -/
def ContextCall.handlerArg : ContextCall → Option HandlerPtr
  | .setEventHandler handler => some handler
  | _ => none

/-- One call on a context; `none` when `EndSendEvent` meets an empty sender stack. -/
def Context.applyContextCall (c : Context) : ContextCall → Option Context
  | .setEventHandler handler => some (c.SetEventHandler handler)
  | .beginSendEvent sender => some (c.BeginSendEvent sender)
  | .endSendEvent => c.EndSendEvent

/-- A sequence of calls, one after the other; `none` as soon as one `EndSendEvent` is
applied to an empty sender stack. -/
def Context.runContextCalls (c : Context) : List ContextCall → Option Context
  | [] => some c
  | call :: rest =>
    match c.applyContextCall call with
    | none => none
    | some c1 => Context.runContextCalls c1 rest

/-- Every `EndSendEvent` of the sequence is matched: no initial part of it holds more
`EndSendEvent` than `BeginSendEvent` calls. -/
def EndsMatched (calls : List ContextCall) : Prop :=
  ∀ n, (calls.take n).countP ContextCall.isEnd ≤ (calls.take n).countP ContextCall.isBegin

/-- The argument of the most recent `SetEventHandler` of the sequence; `none` when the
sequence has no such call. -/
def lastHandlerSet (calls : List ContextCall) : Option HandlerPtr :=
  calls.reverse.findSome? ContextCall.handlerArg

theorem eraseNullsLoop_eq (done todo : List ObjectPtr) :
    eraseNullsLoop done todo = done ++ todo.filter (fun r => decide (r ≠ 0)) := by
  induction todo generalizing done with
  | nil => simp [eraseNullsLoop]
  | cons r todo ih =>
    by_cases h : r = 0
    · simp [eraseNullsLoop, h, ih]
    · simp [eraseNullsLoop, h, ih]

theorem eraseNulls_eq (receivers : List ObjectPtr) :
    eraseNulls receivers = receivers.filter (fun r => decide (r ≠ 0)) := by
  simp [eraseNulls, eraseNullsLoop_eq]

/-! ## Lookups after the map operations -/

theorem StdMap.find_orderedInsert {K V : Type} [DecidableEq K] (lt : K → K → Bool)
    (m : StdMap K V) (k : K) (v : V) (h : StdMap.find m k = none) (k' : K) :
    StdMap.find (StdMap.orderedInsert lt m k v) k' =
      if k' = k then some v else StdMap.find m k' := by
  induction m with
  | nil =>
    by_cases hk : k' = k
    · simp [StdMap.orderedInsert, StdMap.find, hk]
    · have hk2 : ¬ k = k' := fun e => hk e.symm
      simp [StdMap.orderedInsert, StdMap.find, hk, hk2]
  | cons e m ih =>
    obtain ⟨k0, v0⟩ := e
    have h0 : ¬ k0 = k := by
      intro e0
      simp [StdMap.find, e0] at h
    have hm : StdMap.find m k = none := by
      simpa [StdMap.find, h0] using h
    by_cases hlt : lt k k0 = true
    · by_cases hk : k' = k
      · simp [StdMap.orderedInsert, StdMap.find, hlt, hk]
      · have hk2 : ¬ k = k' := fun e => hk e.symm
        simp [StdMap.orderedInsert, StdMap.find, hlt, hk, hk2]
    · by_cases hk : k' = k
      · subst hk
        simp [StdMap.orderedInsert, StdMap.find, hlt, h0, ih hm]
      · by_cases hk0 : k0 = k'
        · subst hk0
          simp [StdMap.orderedInsert, StdMap.find, hlt, hk]
        · simp [StdMap.orderedInsert, StdMap.find, hlt, hk, hk0, ih hm]

theorem StdMap.find_subscript {K V : Type} [DecidableEq K] (lt : K → K → Bool)
    (m : StdMap K V) (k : K) (d : V) (k' : K) :
    StdMap.find (StdMap.subscript lt m k d) k' =
      if k' = k then some ((StdMap.find m k).getD d) else StdMap.find m k' := by
  unfold StdMap.subscript
  cases h : StdMap.find m k with
  | none =>
    simp only [Option.getD_none]
    exact StdMap.find_orderedInsert lt m k d h k'
  | some v =>
    by_cases hk : k' = k
    · subst hk
      simp [h]
    · simp [hk]

theorem StdMap.find_modify {K V : Type} [DecidableEq K]
    (m : StdMap K V) (k : K) (f : V → V) (k' : K) :
    StdMap.find (StdMap.modify m k f) k' =
      if k' = k then (StdMap.find m k).map f else StdMap.find m k' := by
  induction m with
  | nil => simp [StdMap.modify, StdMap.find]
  | cons e m ih =>
    obtain ⟨k0, v0⟩ := e
    by_cases h0 : k0 = k
    · by_cases hk : k' = k
      · simp [StdMap.modify, StdMap.find, h0, hk]
      · have hk2 : ¬ k = k' := fun e => hk e.symm
        simp [StdMap.modify, StdMap.find, h0, hk, hk2]
    · by_cases hk : k' = k
      · subst hk
        simp [StdMap.modify, StdMap.find, h0, ih]
      · by_cases hk0 : k0 = k'
        · simp [StdMap.modify, StdMap.find, h0, hk, hk0]
        · simp [StdMap.modify, StdMap.find, h0, hk, hk0, ih]

/-- The value of a key after one round of the outer loop. -/
theorem find_compactBucket {K : Type} [DecidableEq K] (lt : K → K → Bool)
    (m : StdMap K (List ObjectPtr)) (key k' : K) :
    StdMap.find (compactBucket lt m key) k' =
      if k' = key then
        some (((StdMap.find m key).getD []).filter (fun r => decide (r ≠ 0)))
      else StdMap.find m k' := by
  unfold compactBucket
  rw [StdMap.find_modify]
  by_cases hk : k' = key
  · simp [hk, StdMap.find_subscript, eraseNulls_eq]
  · simp [hk, StdMap.find_subscript]

/-- The value of a key after the whole outer loop over the dirty keys. -/
theorem find_foldl_compactBucket {K : Type} [DecidableEq K] (lt : K → K → Bool)
    (keys : List K) (m : StdMap K (List ObjectPtr)) (k' : K) :
    StdMap.find (keys.foldl (compactBucket lt) m) k' =
      if k' ∈ keys then
        some (((StdMap.find m k').getD []).filter (fun r => decide (r ≠ 0)))
      else StdMap.find m k' := by
  induction keys generalizing m with
  | nil => simp
  | cons key keys ih =>
    rw [List.foldl_cons, ih, find_compactBucket]
    by_cases hk : k' = key
    · subst hk
      by_cases hin : k' ∈ keys
      · simp [hin, List.filter_filter]
      · simp [hin]
    · by_cases hin : k' ∈ keys
      · simp [hin, hk]
      · simp [hin, hk]

/-! ## `EndSendEvent` by the depth of the sender stack -/

theorem Context.EndSendEvent_nested (c : Context) (h : 2 ≤ c.senders_.length) :
    c.EndSendEvent = some { c with senders_ := c.senders_.dropLast } := by
  obtain ⟨f, su, at_, r, sp, sd, d, ds, hd⟩ := c
  match sd, h with
  | a :: b :: t, _ => simp [Context.EndSendEvent, List.dropLast]

theorem Context.EndSendEvent_outermost (c : Context) (h : c.senders_.length = 1) :
    c.EndSendEvent = some { c with
      senders_ := []
      specificReceivers_ :=
        c.dirtySpecificReceivers_.foldl (compactBucket pairLt) c.specificReceivers_
      receivers_ := c.dirtyReceivers_.foldl (compactBucket hashLt) c.receivers_
      dirtyReceivers_ := []
      dirtySpecificReceivers_ := [] } := by
  obtain ⟨f, su, at_, r, sp, sd, d, ds, hd⟩ := c
  match sd, h with
  | [a], _ =>
    cases d <;> cases ds <;> simp [Context.EndSendEvent, List.dropLast]

theorem Context.EndSendEvent_empty (c : Context) (h : c.senders_ = []) :
    c.EndSendEvent = none := by
  simp [Context.EndSendEvent, h]

theorem Context.EndSendEvent_senders (c c' : Context) (h : c.EndSendEvent = some c') :
    c.senders_ ≠ [] ∧ c'.senders_ = c.senders_.dropLast := by
  have hne : c.senders_ ≠ [] := by
    intro he
    rw [Context.EndSendEvent_empty c he] at h
    exact Option.noConfusion h
  refine ⟨hne, ?_⟩
  by_cases h2 : 2 ≤ c.senders_.length
  · rw [Context.EndSendEvent_nested c h2] at h
    cases h
    rfl
  · have h1 : c.senders_.length = 1 := by
      have : 0 < c.senders_.length := List.length_pos.mpr hne
      omega
    rw [Context.EndSendEvent_outermost c h1] at h
    cases h
    match hs : c.senders_, h1 with
    | [a], _ => rfl

/-! ## Reconciliation at the end of the outermost send -/

/-- C1: when the sender stack holds exactly one entry, `EndSendEvent` succeeds, and in the
resulting context the receiver list of every event type of the global dirty set, and of
every (sender, event type) pair of the specific dirty set, is the list the key had before
(the empty list when it had none) with the null slots removed and the other receivers in
their order. -/
theorem EndSendEvent_compacts_dirty_lists (c : Context) (h : c.senders_.length = 1) :
    ∃ c', c.EndSendEvent = some c' ∧
      (∀ e ∈ c.dirtyReceivers_,
        (c'.GetReceiversOfType e).1 =
          some (((c.GetReceiversOfType e).1.getD []).filter (fun r => decide (r ≠ 0)))) ∧
      (∀ p ∈ c.dirtySpecificReceivers_,
        (c'.GetReceivers p.1 p.2).1 =
          some (((c.GetReceivers p.1 p.2).1.getD []).filter (fun r => decide (r ≠ 0)))) := by
  refine ⟨_, Context.EndSendEvent_outermost c h, ?_, ?_⟩
  · intro e he
    simp only [Context.GetReceiversOfType]
    rw [find_foldl_compactBucket]
    simp [he]
  · intro p hp
    simp only [Context.GetReceivers]
    rw [find_foldl_compactBucket]
    simp [hp]

theorem EndSendEvent_compacts_dirty_lists_witness :
    sampleContext.senders_.length = 1 ∧
    ∃ c', sampleContext.EndSendEvent = some c' ∧
      (∀ e ∈ sampleContext.dirtyReceivers_,
        (c'.GetReceiversOfType e).1 =
          some (((sampleContext.GetReceiversOfType e).1.getD []).filter
            (fun r => decide (r ≠ 0)))) ∧
      (∀ p ∈ sampleContext.dirtySpecificReceivers_,
        (c'.GetReceivers p.1 p.2).1 =
          some (((sampleContext.GetReceivers p.1 p.2).1.getD []).filter
            (fun r => decide (r ≠ 0)))) :=
  ⟨by decide, EndSendEvent_compacts_dirty_lists sampleContext (by decide)⟩

/-- C2: when the sender stack holds two or more entries, `EndSendEvent` succeeds and only
removes the top entry of the stack: the receiver maps (hence every list, its null slots,
and the set of buckets), both dirty sets and all other members are as before, and the stack
is still non-empty afterwards. -/
theorem EndSendEvent_nested_only_pops (c : Context) (h : 2 ≤ c.senders_.length) :
    ∃ c' top, c.EndSendEvent = some c' ∧
      c.senders_ = c'.senders_ ++ [top] ∧ c'.senders_ ≠ [] ∧
      c'.receivers_ = c.receivers_ ∧
      c'.specificReceivers_ = c.specificReceivers_ ∧
      c'.dirtyReceivers_ = c.dirtyReceivers_ ∧
      c'.dirtySpecificReceivers_ = c.dirtySpecificReceivers_ ∧
      c' = { c with senders_ := c'.senders_ } := by
  have hne : c.senders_ ≠ [] := by
    intro he
    simp [he] at h
  refine ⟨_, c.senders_.getLast hne, Context.EndSendEvent_nested c h, ?_, ?_, rfl, rfl, rfl,
    rfl, rfl⟩
  · exact (List.dropLast_append_getLast hne).symm
  · intro he
    have hl : c.senders_.dropLast.length = c.senders_.length - 1 := List.length_dropLast _
    have he2 : c.senders_.dropLast = [] := he
    rw [he2] at hl
    simp at hl
    omega

theorem EndSendEvent_nested_only_pops_witness :
    2 ≤ nestedContext.senders_.length ∧
    ∃ c' top, nestedContext.EndSendEvent = some c' ∧
      nestedContext.senders_ = c'.senders_ ++ [top] ∧ c'.senders_ ≠ [] ∧
      c'.receivers_ = nestedContext.receivers_ ∧
      c'.specificReceivers_ = nestedContext.specificReceivers_ ∧
      c'.dirtyReceivers_ = nestedContext.dirtyReceivers_ ∧
      c'.dirtySpecificReceivers_ = nestedContext.dirtySpecificReceivers_ ∧
      c' = { nestedContext with senders_ := c'.senders_ } :=
  ⟨by decide, EndSendEvent_nested_only_pops nestedContext (by decide)⟩

/-- C3: on a non-empty sender stack `EndSendEvent` succeeds, and for every event type and
every (sender, event type) pair the sequence of non-null entries of the key's receiver list
(no entries when the key has no list) is the same before and after; a list that existed
before still exists after. -/
theorem EndSendEvent_keeps_live_receivers (c : Context) (h : c.senders_ ≠ []) :
    ∃ c', c.EndSendEvent = some c' ∧
      (∀ e,
        ((c'.GetReceiversOfType e).1.getD []).filter (fun r => decide (r ≠ 0)) =
          ((c.GetReceiversOfType e).1.getD []).filter (fun r => decide (r ≠ 0))) ∧
      (∀ s e,
        ((c'.GetReceivers s e).1.getD []).filter (fun r => decide (r ≠ 0)) =
          ((c.GetReceivers s e).1.getD []).filter (fun r => decide (r ≠ 0))) ∧
      (∀ e, (c.GetReceiversOfType e).1 ≠ none → (c'.GetReceiversOfType e).1 ≠ none) ∧
      (∀ s e, (c.GetReceivers s e).1 ≠ none → (c'.GetReceivers s e).1 ≠ none) := by
  by_cases h2 : 2 ≤ c.senders_.length
  · exact ⟨_, Context.EndSendEvent_nested c h2, fun _ => rfl, fun _ _ => rfl,
      fun _ hn => hn, fun _ _ hn => hn⟩
  · have h1 : c.senders_.length = 1 := by
      have : 0 < c.senders_.length := List.length_pos.mpr h
      omega
    refine ⟨_, Context.EndSendEvent_outermost c h1, ?_, ?_, ?_, ?_⟩
    · intro e
      simp only [Context.GetReceiversOfType]
      rw [find_foldl_compactBucket]
      by_cases he : e ∈ c.dirtyReceivers_
      · simp [he, List.filter_filter]
      · simp [he]
    · intro s e
      simp only [Context.GetReceivers]
      rw [find_foldl_compactBucket]
      by_cases he : (s, e) ∈ c.dirtySpecificReceivers_
      · simp [he, List.filter_filter]
      · simp [he]
    · intro e
      simp only [Context.GetReceiversOfType]
      rw [find_foldl_compactBucket]
      by_cases he : e ∈ c.dirtyReceivers_
      · simp [he]
      · simp [he]
    · intro s e
      simp only [Context.GetReceivers]
      rw [find_foldl_compactBucket]
      by_cases he : (s, e) ∈ c.dirtySpecificReceivers_
      · simp [he]
      · simp [he]

theorem EndSendEvent_keeps_live_receivers_witness :
    sampleContext.senders_ ≠ [] ∧
    ∃ c', sampleContext.EndSendEvent = some c' ∧
      (∀ e,
        ((c'.GetReceiversOfType e).1.getD []).filter (fun r => decide (r ≠ 0)) =
          ((sampleContext.GetReceiversOfType e).1.getD []).filter
            (fun r => decide (r ≠ 0))) ∧
      (∀ s e,
        ((c'.GetReceivers s e).1.getD []).filter (fun r => decide (r ≠ 0)) =
          ((sampleContext.GetReceivers s e).1.getD []).filter (fun r => decide (r ≠ 0))) ∧
      (∀ e, (sampleContext.GetReceiversOfType e).1 ≠ none →
        (c'.GetReceiversOfType e).1 ≠ none) ∧
      (∀ s e, (sampleContext.GetReceivers s e).1 ≠ none →
        (c'.GetReceivers s e).1 ≠ none) :=
  ⟨by decide, EndSendEvent_keeps_live_receivers sampleContext (by decide)⟩

/-- C4: when the sender stack holds exactly one entry, `EndSendEvent` succeeds and leaves
the sender stack, the global dirty set and the specific dirty set empty, whatever the dirty
sets held before. -/
theorem EndSendEvent_outermost_clears (c : Context) (h : c.senders_.length = 1) :
    ∃ c', c.EndSendEvent = some c' ∧
      c'.senders_ = [] ∧ c'.dirtyReceivers_ = [] ∧ c'.dirtySpecificReceivers_ = [] :=
  ⟨_, Context.EndSendEvent_outermost c h, rfl, rfl, rfl⟩

theorem EndSendEvent_outermost_clears_witness :
    sampleContext.senders_.length = 1 ∧
    ∃ c', sampleContext.EndSendEvent = some c' ∧
      c'.senders_ = [] ∧ c'.dirtyReceivers_ = [] ∧ c'.dirtySpecificReceivers_ = [] :=
  ⟨by decide, EndSendEvent_outermost_clears sampleContext (by decide)⟩

/-! ## Sequences of `BeginSendEvent` and `EndSendEvent` -/

theorem Context.runCalls_append (c : Context) (a b : List SendCall) :
    c.runCalls (a ++ b) =
      match c.runCalls a with
      | none => none
      | some c1 => c1.runCalls b := by
  induction a generalizing c with
  | nil => simp [Context.runCalls]
  | cons call a ih =>
    simp only [List.cons_append, Context.runCalls]
    cases c.applyCall call with
    | none => rfl
    | some c1 => exact ih c1

/-- The stack reached by a sequence in which no initial part has more ends than begins,
started on an empty stack: the run succeeds, the depth is the surplus of begins, and the
stack read from its top is what the backward search finds. -/
theorem Context.runCalls_balanced (calls : List SendCall) (c : Context)
    (h0 : c.senders_ = [])
    (hb : ∀ n, countEnd (calls.take n) ≤ countBegin (calls.take n)) :
    ∃ c', c.runCalls calls = some c' ∧
      c'.senders_.length + countEnd calls = countBegin calls ∧
      ∀ k, scanBack calls.reverse k = c'.senders_.reverse[k]? := by
  induction calls using List.reverseRecOn with
  | nil =>
    refine ⟨c, rfl, ?_, ?_⟩
    · simp [h0, countEnd, countBegin]
    · intro k
      simp [h0, scanBack]
  | append_singleton init call ih =>
    have hinit : ∀ n, countEnd (init.take n) ≤ countBegin (init.take n) := by
      intro n
      by_cases hn : n ≤ init.length
      · have := hb n
        rwa [List.take_append_of_le_length hn] at this
      · have := hb init.length
        rw [List.take_append_of_le_length (Nat.le_refl _), List.take_length] at this
        rwa [List.take_of_length_le (by omega)]
    obtain ⟨c1, hrun, hlen, hscan⟩ := ih hinit
    have hfull := hb (init ++ [call]).length
    rw [List.take_length] at hfull
    rw [Context.runCalls_append, hrun]
    cases call with
    | beginSend s =>
      refine ⟨c1.BeginSendEvent s, rfl, ?_, ?_⟩
      · simp only [Context.BeginSendEvent, countEnd, countBegin, List.countP_append,
          List.length_append] at *
        simp [SendCall.isBegin] at *
        omega
      · intro k
        simp only [List.reverse_append, List.reverse_cons, List.reverse_nil, List.nil_append,
          List.singleton_append, Context.BeginSendEvent]
        cases k with
        | zero => simp [scanBack]
        | succ k => simpa [scanBack] using hscan k
    | endSend =>
      have hcnt : countEnd init + 1 ≤ countBegin init := by
        simp only [countEnd, countBegin, List.countP_append] at hfull
        simp [SendCall.isBegin] at hfull
        simpa [countEnd, countBegin] using hfull
      have hne : c1.senders_ ≠ [] := by
        intro he
        rw [he] at hlen
        simp at hlen
        omega
      cases hend : c1.EndSendEvent with
      | none =>
        exfalso
        by_cases h2 : 2 ≤ c1.senders_.length
        · rw [Context.EndSendEvent_nested c1 h2] at hend
          exact Option.noConfusion hend
        · have h1 : c1.senders_.length = 1 := by
            have : 0 < c1.senders_.length := List.length_pos.mpr hne
            omega
          rw [Context.EndSendEvent_outermost c1 h1] at hend
          exact Option.noConfusion hend
      | some c2 =>
        have hs := (Context.EndSendEvent_senders c1 c2 hend).2
        refine ⟨c2, ?_, ?_, ?_⟩
        · simp [Context.runCalls, Context.applyCall, hend]
        · rw [hs, List.length_dropLast]
          have : 0 < c1.senders_.length := List.length_pos.mpr hne
          simp only [countEnd, countBegin, List.countP_append] at *
          simp [SendCall.isBegin] at *
          omega
        · intro k
          have hk := hscan (k + 1)
          simp only [List.reverse_append, List.reverse_cons, List.reverse_nil,
            List.nil_append, List.singleton_append, scanBack]
          rw [hk, hs]
          have hcat := List.dropLast_concat_getLast hne
          generalize c1.senders_.dropLast = st at hcat
          rw [← hcat]
          simp

theorem sampleCalls_balanced :
    ∀ n, countEnd (sampleCalls.take n) ≤ countBegin (sampleCalls.take n) := by
  intro n
  rcases Nat.lt_or_ge n 5 with h | h
  · interval_cases n <;> decide
  · rw [List.take_of_length_le (by simpa [sampleCalls] using h)]
    decide

/-- C5: a sequence of `BeginSendEvent` and `EndSendEvent` calls, started on an empty sender
stack, in which no initial part has more `EndSendEvent` than `BeginSendEvent` calls, runs to
the end; every `EndSendEvent` in it meets a non-empty stack; the final depth is the number
of `BeginSendEvent` minus the number of `EndSendEvent` calls; the stack is empty exactly
when these numbers agree, exactly when no `BeginSendEvent` is left unmatched, and the
current sender is then null; otherwise the top of the stack, which is the current sender,
is the argument of the most recent unmatched `BeginSendEvent`. -/
theorem send_bracket_tracks_sender (c : Context) (calls : List SendCall)
    (h0 : c.senders_ = [])
    (hb : ∀ n, countEnd (calls.take n) ≤ countBegin (calls.take n)) :
    ∃ c', c.runCalls calls = some c' ∧
      (∀ n, calls[n]? = some SendCall.endSend →
        ∃ c1, c.runCalls (calls.take n) = some c1 ∧ c1.senders_ ≠ []) ∧
      c'.senders_.length = countBegin calls - countEnd calls ∧
      (c'.senders_ = [] ↔ countBegin calls = countEnd calls) ∧
      (c'.senders_ = [] ↔ mostRecentUnmatched calls = none) ∧
      (c'.senders_ = [] → c'.GetSender = 0) ∧
      (∀ s, mostRecentUnmatched calls = some s →
        c'.senders_.getLast? = some s ∧ c'.GetSender = s) := by
  obtain ⟨c', hrun, hlen, hscan⟩ := Context.runCalls_balanced calls c h0 hb
  have htop : c'.senders_.getLast? = mostRecentUnmatched calls := by
    rw [mostRecentUnmatched, hscan 0, List.getLast?_eq_head?_reverse, List.head?_eq_getElem?]
  refine ⟨c', hrun, ?_, by omega, ?_, ?_, ?_, ?_⟩
  · intro n hn
    have hpre : ∀ m, countEnd ((calls.take n).take m) ≤ countBegin ((calls.take n).take m) := by
      intro m
      rw [List.take_take]
      exact hb _
    obtain ⟨c1, hrun1, hlen1, _⟩ := Context.runCalls_balanced (calls.take n) c h0 hpre
    refine ⟨c1, hrun1, ?_⟩
    intro he
    have hnext := hb (n + 1)
    rw [List.take_succ, hn] at hnext
    simp only [countEnd, countBegin, List.countP_append, Option.toList] at hnext hlen1
    simp [SendCall.isBegin, he] at hnext hlen1
    omega
  · constructor
    · intro he
      rw [he] at hlen
      simpa using hlen.symm
    · intro he
      have : c'.senders_.length = 0 := by omega
      exact List.length_eq_zero.mp this
  · rw [← htop]
    exact List.getLast?_eq_none_iff.symm
  · intro he
    simp [Context.GetSender, he]
  · intro s hs
    rw [← htop] at hs
    exact ⟨hs, by simp [Context.GetSender, hs]⟩

theorem send_bracket_tracks_sender_witness :
    idleContext.senders_ = [] ∧
    (∀ n, countEnd (sampleCalls.take n) ≤ countBegin (sampleCalls.take n)) ∧
    ∃ c', idleContext.runCalls sampleCalls = some c' ∧
      (∀ n, sampleCalls[n]? = some SendCall.endSend →
        ∃ c1, idleContext.runCalls (sampleCalls.take n) = some c1 ∧ c1.senders_ ≠ []) ∧
      c'.senders_.length = countBegin sampleCalls - countEnd sampleCalls ∧
      (c'.senders_ = [] ↔ countBegin sampleCalls = countEnd sampleCalls) ∧
      (c'.senders_ = [] ↔ mostRecentUnmatched sampleCalls = none) ∧
      (c'.senders_ = [] → c'.GetSender = 0) ∧
      (∀ s, mostRecentUnmatched sampleCalls = some s →
        c'.senders_.getLast? = some s ∧ c'.GetSender = s) :=
  ⟨by decide, sampleCalls_balanced,
    send_bracket_tracks_sender idleContext sampleCalls (by decide) sampleCalls_balanced⟩

theorem sampleCalls_run :
    (idleContext.runCalls sampleCalls).map (fun c => (c.senders_, c.GetSender)) =
      some ([7], 7) ∧ mostRecentUnmatched sampleCalls = some 7 := by
  decide

/-! ## `BeginSendEvent` and the nested bracket -/

/-- C6: for every context and every sender, the null sender included, `BeginSendEvent`
puts the sender on top of the unchanged earlier entries of the sender stack, so the depth
grows by one, and leaves the receiver maps, both dirty sets, the factories, subsystems and
attributes and the event handler as they were. -/
theorem BeginSendEvent_pushes_sender (c : Context) (sender : ObjectPtr) :
    (c.BeginSendEvent sender).senders_ = c.senders_ ++ [sender] ∧
    (c.BeginSendEvent sender).senders_.getLast? = some sender ∧
    (c.BeginSendEvent sender).senders_.dropLast = c.senders_ ∧
    (c.BeginSendEvent sender).senders_.length = c.senders_.length + 1 ∧
    (c.BeginSendEvent sender).receivers_ = c.receivers_ ∧
    (c.BeginSendEvent sender).specificReceivers_ = c.specificReceivers_ ∧
    (c.BeginSendEvent sender).dirtyReceivers_ = c.dirtyReceivers_ ∧
    (c.BeginSendEvent sender).dirtySpecificReceivers_ = c.dirtySpecificReceivers_ ∧
    (c.BeginSendEvent sender).factories_ = c.factories_ ∧
    (c.BeginSendEvent sender).subsystems_ = c.subsystems_ ∧
    (c.BeginSendEvent sender).attributes_ = c.attributes_ ∧
    (c.BeginSendEvent sender).handler_ = c.handler_ := by
  simp [Context.BeginSendEvent]

/-- C7: `BeginSendEvent(sender)` followed at once by `EndSendEvent` gives back the very
context it started from, when the sender stack was non-empty, and also when it was empty
and both dirty sets were empty. -/
theorem nested_bracket_identity (c : Context) (sender : ObjectPtr)
    (h : c.senders_ ≠ [] ∨ (c.dirtyReceivers_ = [] ∧ c.dirtySpecificReceivers_ = [])) :
    (c.BeginSendEvent sender).EndSendEvent = some c := by
  by_cases hne : c.senders_ = []
  · rcases h with h | ⟨hd, hs⟩
    · exact absurd hne h
    · have h1 : (c.BeginSendEvent sender).senders_.length = 1 := by
        simp [Context.BeginSendEvent, hne]
      rw [Context.EndSendEvent_outermost _ h1]
      obtain ⟨f, su, at_, r, sp, sd, d, ds, hd0⟩ := c
      simp only at hne hd hs
      subst hne hd hs
      simp [Context.BeginSendEvent]
  · have h2 : 2 ≤ (c.BeginSendEvent sender).senders_.length := by
      have : 0 < c.senders_.length := List.length_pos.mpr hne
      simp [Context.BeginSendEvent]
      omega
    rw [Context.EndSendEvent_nested _ h2]
    simp [Context.BeginSendEvent]

theorem nested_bracket_identity_witness :
    (nestedContext.senders_ ≠ [] ∨
      (nestedContext.dirtyReceivers_ = [] ∧ nestedContext.dirtySpecificReceivers_ = [])) ∧
    (nestedContext.BeginSendEvent 9).EndSendEvent = some nestedContext :=
  ⟨by decide, nested_bracket_identity nestedContext 9 (by decide)⟩

/-! ## The lookups -/

theorem StdMap.find_eq_none_iff {K V : Type} [DecidableEq K] (m : StdMap K V) (k : K) :
    StdMap.find m k = none ↔ ∀ v, (k, v) ∉ m := by
  induction m with
  | nil => simp [StdMap.find]
  | cons e m ih =>
    obtain ⟨k0, v0⟩ := e
    by_cases h0 : k0 = k
    · subst h0
      simp only [StdMap.find, if_true, List.mem_cons, not_or]
      constructor
      · intro h
        exact Option.noConfusion h
      · intro h
        exact absurd rfl (h v0).1
    · have h0s : ¬ k = k0 := fun e => h0 e.symm
      simp [StdMap.find, h0, h0s, ih]

theorem StdMap.mem_of_find {K V : Type} [DecidableEq K] (m : StdMap K V) (k : K) (v : V)
    (h : StdMap.find m k = some v) : (k, v) ∈ m := by
  induction m with
  | nil => simp [StdMap.find] at h
  | cons e m ih =>
    obtain ⟨k0, v0⟩ := e
    by_cases h0 : k0 = k
    · subst h0
      simp [StdMap.find] at h
      simp [h]
    · simp only [StdMap.find, h0, if_false] at h
      exact List.mem_cons_of_mem _ (ih h)

theorem StdMap.find_of_mem {K V : Type} [DecidableEq K] (m : StdMap K V)
    (hu : StdMap.UniqueKeys m) (k : K) (v : V) (h : (k, v) ∈ m) :
    StdMap.find m k = some v := by
  induction m with
  | nil => simp at h
  | cons e m ih =>
    obtain ⟨k0, v0⟩ := e
    simp only [StdMap.UniqueKeys, List.map_cons, List.nodup_cons, List.mem_map, Prod.exists,
      exists_and_right, exists_eq_right, not_exists] at hu
    rcases List.mem_cons.mp h with he | hm
    · cases he
      simp [StdMap.find]
    · have h0 : ¬ k0 = k := by
        intro e0
        subst e0
        exact hu.1 v hm
      simp only [StdMap.find, h0, if_false]
      exact ih hu.2 hm

/-- C8: `GetReceivers(sender, eventType)` returns null exactly when the specific map has no
entry under the pair `(sender, eventType)`; what it returns otherwise is a list stored under
that very pair, and, the map holding one entry per key, the list stored there is what it
returns. `GetReceivers(eventType)` does the same on the global map under `eventType`.
Both leave the context as it was. -/
theorem GetReceivers_lookup (c : Context) (sender : ObjectPtr) (eventType : StringHash) :
    ((c.GetReceivers sender eventType).1 = none ↔
      ∀ l, ((sender, eventType), l) ∉ c.specificReceivers_) ∧
    (∀ l, (c.GetReceivers sender eventType).1 = some l →
      ((sender, eventType), l) ∈ c.specificReceivers_) ∧
    (StdMap.UniqueKeys c.specificReceivers_ →
      ∀ l, ((sender, eventType), l) ∈ c.specificReceivers_ →
        (c.GetReceivers sender eventType).1 = some l) ∧
    (c.GetReceivers sender eventType).2 = c ∧
    ((c.GetReceiversOfType eventType).1 = none ↔ ∀ l, (eventType, l) ∉ c.receivers_) ∧
    (∀ l, (c.GetReceiversOfType eventType).1 = some l → (eventType, l) ∈ c.receivers_) ∧
    (StdMap.UniqueKeys c.receivers_ →
      ∀ l, (eventType, l) ∈ c.receivers_ → (c.GetReceiversOfType eventType).1 = some l) ∧
    (c.GetReceiversOfType eventType).2 = c :=
  ⟨StdMap.find_eq_none_iff _ _, fun l h => StdMap.mem_of_find _ _ l h,
    fun hu l h => StdMap.find_of_mem _ hu _ l h, rfl,
    StdMap.find_eq_none_iff _ _, fun l h => StdMap.mem_of_find _ _ l h,
    fun hu l h => StdMap.find_of_mem _ hu _ l h, rfl⟩

theorem GetReceivers_lookup_witness :
    (sampleContext.GetReceivers 7 5).1 = some [0, 14, 0] ∧
    (sampleContext.GetReceiversOfType 5).1 = some [11, 0, 12, 11] ∧
    ((sampleContext.GetReceivers 8 5).1 = none ↔
      ∀ l, ((8, 5), l) ∉ sampleContext.specificReceivers_) :=
  ⟨(GetReceivers_lookup sampleContext 7 5).2.2.1 (by decide) [0, 14, 0] (by decide),
    (GetReceivers_lookup sampleContext 7 5).2.2.2.2.2.2.1 (by decide) [11, 0, 12, 11]
      (by decide),
    (GetReceivers_lookup sampleContext 8 5).1⟩

/-- C9: `GetAttributes(type)` returns null exactly when the attribute table has no entry
under `type`; what it returns otherwise is a descriptor list stored under `type`, and, the
table holding one entry per key, the list stored there is what it returns. The context is
left as it was: no list is created for an unknown type. -/
theorem GetAttributes_lookup (c : Context) (type : ShortStringHash) :
    ((c.GetAttributes type).1 = none ↔ ∀ l, (type, l) ∉ c.attributes_) ∧
    (∀ l, (c.GetAttributes type).1 = some l → (type, l) ∈ c.attributes_) ∧
    (StdMap.UniqueKeys c.attributes_ →
      ∀ l, (type, l) ∈ c.attributes_ → (c.GetAttributes type).1 = some l) ∧
    (c.GetAttributes type).2 = c :=
  ⟨StdMap.find_eq_none_iff _ _, fun l h => StdMap.mem_of_find _ _ l h,
    fun hu l h => StdMap.find_of_mem _ hu _ l h, rfl⟩

theorem GetAttributes_lookup_witness :
    (sampleContext.GetAttributes 3).1 = some [⟨"pos", 0⟩, ⟨"rot", 1⟩] ∧
    ((sampleContext.GetAttributes 4).1 = none ↔
      ∀ l, (4, l) ∉ sampleContext.attributes_) ∧
    (sampleContext.GetAttributes 4).2 = sampleContext :=
  ⟨(GetAttributes_lookup sampleContext 3).2.2.1 (by decide) _ (by decide),
    (GetAttributes_lookup sampleContext 4).1,
    (GetAttributes_lookup sampleContext 4).2.2.2⟩

/-! ## No stale entry survives reconciliation -/

theorem sampleContext_nulls_marked :
    (∀ e l, (sampleContext.GetReceiversOfType e).1 = some l → 0 ∈ l →
      e ∈ sampleContext.dirtyReceivers_) ∧
    (∀ s e l, (sampleContext.GetReceivers s e).1 = some l → 0 ∈ l →
      (s, e) ∈ sampleContext.dirtySpecificReceivers_) := by
  constructor
  · intro e l h hz
    by_cases h5 : e = 5
    · subst h5
      decide
    · by_cases h6 : e = 6
      · subst h6
        have hl : l = [13] := by
          simpa [Context.GetReceiversOfType, sampleContext, StdMap.find] using h.symm
        subst hl
        simp at hz
      · have h5s : ¬ 5 = e := fun x => h5 x.symm
        have h6s : ¬ 6 = e := fun x => h6 x.symm
        simp [Context.GetReceiversOfType, sampleContext, StdMap.find, h5s, h6s] at h
  · intro s e l h hz
    by_cases hk : ((7 : ObjectPtr), (5 : StringHash)) = (s, e)
    · cases hk
      decide
    · simp [Context.GetReceivers, sampleContext, StdMap.find, hk] at h

/-- C10: when the sender stack holds exactly one entry and every receiver list that holds a
null slot has its key in the matching dirty set, `EndSendEvent` succeeds and afterwards no
global and no specific receiver list holds a null slot. -/
theorem EndSendEvent_removes_every_null (c : Context) (h : c.senders_.length = 1)
    (hg : ∀ e l, (c.GetReceiversOfType e).1 = some l → 0 ∈ l → e ∈ c.dirtyReceivers_)
    (hs : ∀ s e l, (c.GetReceivers s e).1 = some l → 0 ∈ l →
      (s, e) ∈ c.dirtySpecificReceivers_) :
    ∃ c', c.EndSendEvent = some c' ∧
      (∀ e l, (c'.GetReceiversOfType e).1 = some l → 0 ∉ l) ∧
      (∀ s e l, (c'.GetReceivers s e).1 = some l → 0 ∉ l) := by
  refine ⟨_, Context.EndSendEvent_outermost c h, ?_, ?_⟩
  · intro e l hl
    simp only [Context.GetReceiversOfType] at hl hg
    rw [find_foldl_compactBucket] at hl
    by_cases he : e ∈ c.dirtyReceivers_
    · simp only [he, if_true, Option.some.injEq] at hl
      rw [← hl]
      simp
    · simp only [he, if_false] at hl
      exact fun hz => he (hg e l hl hz)
  · intro s e l hl
    simp only [Context.GetReceivers] at hl hs
    rw [find_foldl_compactBucket] at hl
    by_cases he : (s, e) ∈ c.dirtySpecificReceivers_
    · simp only [he, if_true, Option.some.injEq] at hl
      rw [← hl]
      simp
    · simp only [he, if_false] at hl
      exact fun hz => he (hs s e l hl hz)

theorem EndSendEvent_removes_every_null_witness :
    sampleContext.senders_.length = 1 ∧
    (∀ e l, (sampleContext.GetReceiversOfType e).1 = some l → 0 ∈ l →
      e ∈ sampleContext.dirtyReceivers_) ∧
    (∀ s e l, (sampleContext.GetReceivers s e).1 = some l → 0 ∈ l →
      (s, e) ∈ sampleContext.dirtySpecificReceivers_) ∧
    ∃ c', sampleContext.EndSendEvent = some c' ∧
      (∀ e l, (c'.GetReceiversOfType e).1 = some l → 0 ∉ l) ∧
      (∀ s e l, (c'.GetReceivers s e).1 = some l → 0 ∉ l) :=
  ⟨by decide, sampleContext_nulls_marked.1, sampleContext_nulls_marked.2,
    EndSendEvent_removes_every_null sampleContext (by decide)
      sampleContext_nulls_marked.1 sampleContext_nulls_marked.2⟩

/-! ## The sample send, evaluated -/

theorem sampleContext_EndSendEvent :
    sampleContext.EndSendEvent =
      some { sampleContext with
        senders_ := []
        receivers_ := [(5, [11, 12, 11]), (6, [13]), (9, [])]
        specificReceivers_ := [((7, 5), [14])]
        dirtyReceivers_ := []
        dirtySpecificReceivers_ := [] } := by
  decide

/-! ## The dirty-set invariant -/

theorem markedContext_invariant : DirtyInvariant markedContext := by
  constructor
  · intro e he
    have h5 : e = 5 := by simpa [markedContext] using he
    subst h5
    exact ⟨[11, 0, 12, 11], by decide, by decide⟩
  · intro p hp
    have h75 : p = (7, 5) := by simpa [markedContext, nestedContext, sampleContext] using hp
    subst h75
    exact ⟨[0, 14, 0], by decide, by decide⟩

/-- C11: the invariant of the dirty sets (every key of a dirty set names a receiver list
with at least one null slot) carries over from a context to the context after
`BeginSendEvent`, for every sender, and to the context after `EndSendEvent`, which
succeeds on a non-empty sender stack. -/
theorem dirty_invariant_preserved (c : Context) (hinv : DirtyInvariant c) :
    (∀ sender, DirtyInvariant (c.BeginSendEvent sender)) ∧
    (c.senders_ ≠ [] → ∃ c', c.EndSendEvent = some c' ∧ DirtyInvariant c') := by
  constructor
  · intro sender
    exact hinv
  · intro hne
    by_cases h2 : 2 ≤ c.senders_.length
    · exact ⟨_, Context.EndSendEvent_nested c h2, hinv⟩
    · have h1 : c.senders_.length = 1 := by
        have : 0 < c.senders_.length := List.length_pos.mpr hne
        omega
      refine ⟨_, Context.EndSendEvent_outermost c h1, ?_, ?_⟩
      · intro e he
        simp at he
      · intro p hp
        simp at hp

theorem dirty_invariant_preserved_witness :
    DirtyInvariant markedContext ∧
    (∀ sender, DirtyInvariant (markedContext.BeginSendEvent sender)) ∧
    (markedContext.senders_ ≠ [] →
      ∃ c', markedContext.EndSendEvent = some c' ∧ DirtyInvariant c') :=
  ⟨markedContext_invariant, dirty_invariant_preserved markedContext markedContext_invariant⟩

/-! ## Buckets created and members left alone by `EndSendEvent` -/

theorem Context.EndSendEvent_frame (c c' : Context) (h : c.EndSendEvent = some c') :
    c'.factories_ = c.factories_ ∧ c'.subsystems_ = c.subsystems_ ∧
    c'.attributes_ = c.attributes_ ∧ c'.handler_ = c.handler_ := by
  have hne : c.senders_ ≠ [] := (Context.EndSendEvent_senders c c' h).1
  by_cases h2 : 2 ≤ c.senders_.length
  · rw [Context.EndSendEvent_nested c h2] at h
    cases h
    exact ⟨rfl, rfl, rfl, rfl⟩
  · have h1 : c.senders_.length = 1 := by
      have : 0 < c.senders_.length := List.length_pos.mpr hne
      omega
    rw [Context.EndSendEvent_outermost c h1] at h
    cases h
    exact ⟨rfl, rfl, rfl, rfl⟩

/-- C13, the code at the failing input: in `purgedContext` the sender stack is non-empty,
the specific map has no bucket at all and `GetReceivers(7, 5)` is null; `EndSendEvent`
succeeds and leaves a bucket under `(7, 5)`, the empty list that `specificReceivers_[*i]`
inserted for the dirty pair, so `GetReceivers(7, 5)` is not null afterwards. -/
theorem EndSendEvent_creates_bucket_at_purged_key :
    purgedContext.senders_ ≠ [] ∧
    (purgedContext.GetReceivers 7 5).1 = none ∧
    purgedContext.EndSendEvent =
      some { purgedContext with
        senders_ := []
        specificReceivers_ := [((7, 5), [])]
        dirtySpecificReceivers_ := [] } ∧
    purgedContext.EndSendEvent.map (fun c' => (c'.GetReceivers 7 5).1) = some (some []) := by
  decide

/-- C14: when the sender stack holds exactly one entry, `EndSendEvent` succeeds; the lookup
of every event type outside the global dirty set, and of every (sender, event type) pair
outside the specific dirty set, gives after it what it gave before, null slots included;
the factories, subsystems, attributes and the event handler are as before (the stored
handler pointer, and what `GetHandler` returns whichever objects have been destroyed). -/
theorem EndSendEvent_touches_only_dirty (c : Context) (h : c.senders_.length = 1) :
    ∃ c', c.EndSendEvent = some c' ∧
      (∀ e, e ∉ c.dirtyReceivers_ →
        (c'.GetReceiversOfType e).1 = (c.GetReceiversOfType e).1) ∧
      (∀ s e, (s, e) ∉ c.dirtySpecificReceivers_ →
        (c'.GetReceivers s e).1 = (c.GetReceivers s e).1) ∧
      c'.factories_ = c.factories_ ∧ c'.subsystems_ = c.subsystems_ ∧
      c'.attributes_ = c.attributes_ ∧ c'.handler_ = c.handler_ ∧
      c'.GetHandler = c.GetHandler ∧
      (∀ expired, c'.GetHandler expired = c.GetHandler expired) := by
  refine ⟨_, Context.EndSendEvent_outermost c h, ?_, ?_, rfl, rfl, rfl, rfl, rfl,
    fun _ => rfl⟩
  · intro e he
    simp only [Context.GetReceiversOfType]
    rw [find_foldl_compactBucket]
    simp [he]
  · intro s e he
    simp only [Context.GetReceivers]
    rw [find_foldl_compactBucket]
    simp [he]

theorem EndSendEvent_touches_only_dirty_witness :
    unmarkedContext.senders_.length = 1 ∧
    6 ∉ unmarkedContext.dirtyReceivers_ ∧
    (unmarkedContext.GetReceiversOfType 6).1 = some [0, 13] ∧
    ∃ c', unmarkedContext.EndSendEvent = some c' ∧
      (∀ e, e ∉ unmarkedContext.dirtyReceivers_ →
        (c'.GetReceiversOfType e).1 = (unmarkedContext.GetReceiversOfType e).1) ∧
      (∀ s e, (s, e) ∉ unmarkedContext.dirtySpecificReceivers_ →
        (c'.GetReceivers s e).1 = (unmarkedContext.GetReceivers s e).1) ∧
      c'.factories_ = unmarkedContext.factories_ ∧
      c'.subsystems_ = unmarkedContext.subsystems_ ∧
      c'.attributes_ = unmarkedContext.attributes_ ∧
      c'.handler_ = unmarkedContext.handler_ ∧
      c'.GetHandler = unmarkedContext.GetHandler ∧
      (∀ expired, c'.GetHandler expired = unmarkedContext.GetHandler expired) :=
  ⟨by decide, by decide, by decide,
    EndSendEvent_touches_only_dirty unmarkedContext (by decide)⟩

/-! ## The event handler over sequences of calls -/

theorem Context.runContextCalls_append (c : Context) (a b : List ContextCall) :
    c.runContextCalls (a ++ b) =
      match c.runContextCalls a with
      | none => none
      | some c1 => c1.runContextCalls b := by
  induction a generalizing c with
  | nil => simp [Context.runContextCalls]
  | cons call a ih =>
    simp only [List.cons_append, Context.runContextCalls]
    cases c.applyContextCall call with
    | none => rfl
    | some c1 => exact ih c1

theorem EndsMatched.init {init : List ContextCall} {call : ContextCall}
    (h : EndsMatched (init ++ [call])) : EndsMatched init := by
  intro n
  by_cases hn : n ≤ init.length
  · have := h n
    rwa [List.take_append_of_le_length hn] at this
  · have := h init.length
    rw [List.take_append_of_le_length (Nat.le_refl _), List.take_length] at this
    rwa [List.take_of_length_le (by omega)]

/-- A sequence with matched ends, started on an empty stack, runs to the end; the depth
reached is the surplus of begins, and the handler is the one set last, or the initial one. -/
theorem Context.runContextCalls_matched (calls : List ContextCall) (c0 : Context)
    (h0 : c0.senders_ = []) (hm : EndsMatched calls) :
    ∃ c, c0.runContextCalls calls = some c ∧
      c.senders_.length + calls.countP ContextCall.isEnd =
        calls.countP ContextCall.isBegin ∧
      c.handler_ = (lastHandlerSet calls).getD c0.handler_ := by
  induction calls using List.reverseRecOn with
  | nil =>
    exact ⟨c0, rfl, by simp [h0], by simp [lastHandlerSet]⟩
  | append_singleton init call ih =>
    obtain ⟨c1, hrun, hlen, hh⟩ := ih hm.init
    have hfull := hm (init ++ [call]).length
    rw [List.take_length, List.countP_append, List.countP_append] at hfull
    rw [Context.runContextCalls_append, hrun]
    cases call with
    | setEventHandler handler =>
      refine ⟨c1.SetEventHandler handler, rfl, ?_, ?_⟩
      · simpa [Context.SetEventHandler, List.countP_append, ContextCall.isEnd,
          ContextCall.isBegin] using hlen
      · simp [Context.SetEventHandler, lastHandlerSet, ContextCall.handlerArg]
    | beginSendEvent sender =>
      refine ⟨c1.BeginSendEvent sender, rfl, ?_, ?_⟩
      · simp [Context.BeginSendEvent, List.countP_append, ContextCall.isEnd,
          ContextCall.isBegin]
        omega
      · simpa [Context.BeginSendEvent, lastHandlerSet, ContextCall.handlerArg,
          List.findSome?_cons] using hh
    | endSendEvent =>
      simp [ContextCall.isEnd, ContextCall.isBegin] at hfull
      have hne : c1.senders_ ≠ [] := by
        intro he
        rw [he] at hlen
        simp at hlen
        omega
      cases hend : c1.EndSendEvent with
      | none =>
        exfalso
        by_cases h2 : 2 ≤ c1.senders_.length
        · rw [Context.EndSendEvent_nested c1 h2] at hend
          exact Option.noConfusion hend
        · have h1 : c1.senders_.length = 1 := by
            have : 0 < c1.senders_.length := List.length_pos.mpr hne
            omega
          rw [Context.EndSendEvent_outermost c1 h1] at hend
          exact Option.noConfusion hend
      | some c2 =>
        have hs := (Context.EndSendEvent_senders c1 c2 hend).2
        have hf := (Context.EndSendEvent_frame c1 c2 hend).2.2.2
        refine ⟨c2, ?_, ?_, ?_⟩
        · simp [Context.runContextCalls, Context.applyContextCall, hend]
        · rw [hs, List.length_dropLast]
          have : 0 < c1.senders_.length := List.length_pos.mpr hne
          simp [List.countP_append, ContextCall.isEnd, ContextCall.isBegin]
          omega
        · rw [hf, hh]
          simp [lastHandlerSet, ContextCall.handlerArg, List.findSome?_cons]

/-- What `GetHandler` reads after a sequence with matched ends, started on an empty stack:
the handler set last (the initial one when none was set), unless that object has been
destroyed, in which case it reads null. -/
theorem Context.GetHandler_after_calls (calls : List ContextCall) (c0 : Context)
    (h0 : c0.senders_ = []) (hm : EndsMatched calls) (expired : HandlerPtr → Bool) :
    ∃ c, c0.runContextCalls calls = some c ∧
      c.GetHandler expired =
        WeakPtr.get expired ((lastHandlerSet calls).getD c0.handler_) := by
  obtain ⟨c, hrun, _, hhandler⟩ := Context.runContextCalls_matched calls c0 h0 hm
  exact ⟨c, hrun, by simp [Context.GetHandler, hhandler]⟩

end Urho3D
